import Mathlib

/-!
# Verification of `update_dns/main.py` (infrahouse/terraform-aws-update-dns)

Shallow embedding of the lambda in `src/update_dns/main.py` and proofs about
its record-merge protocol, its DynamoDB-based lock and its lifecycle handler.

Modelling conventions:
* A Route53 record set returned by `list_resource_record_sets` is `RRSet`;
  the optional `ResourceRecords` key (absent on alias records) is an
  `Option (List String)`.
* A Python `set` of strings is a `Finset String` (deduplicated, unordered);
  `sorted(list(s))` is `Finset.sort (· ≤ ·)`.  CPython's `list(s)` without
  `sorted` has an unspecified, hash-randomized order, so where the code
  converts a set to a list without sorting the enumeration is an explicit
  parameter constrained to be a duplicate-free listing of the set.
* The paginated listing client is a list of `Page`s consumed in order, the
  way the unit test `test_add_record.py` mocks it; the `NextRecord*` cursor
  plumbing carries no data beyond "fetch the next page" and is not modelled.
* Printing, `boto3` client construction and `create_tags` are effect-free
  for the record-set claims and are omitted.
-/

namespace UpdateDns

/-! ## String ordering

Python's `sorted` compares strings lexicographically by code point.  Lean's
built-in `String` order is the same order, but its decision procedure does
not reduce inside the kernel, so we use an explicitly structural code-point
comparison on `String.data`. -/

/-- Code-point lexicographic strict comparison of two character lists. -/
def ltChars : List Char → List Char → Bool
  | [], [] => false
  | [], _ :: _ => true
  | _ :: _, [] => false
  | a :: as, b :: bs =>
    if a.toNat < b.toNat then true
    else if b.toNat < a.toNat then false
    else ltChars as bs

theorem ltChars_asymm : ∀ {a b : List Char}, ltChars a b = true → ltChars b a = false
  | [], [], h => by simp [ltChars] at h
  | [], _ :: _, _ => by simp [ltChars]
  | _ :: _, [], h => by simp [ltChars] at h
  | a :: as, b :: bs, h => by
    rcases Nat.lt_trichotomy a.toNat b.toNat with h1 | h1 | h1
    · simp [ltChars, h1, Nat.lt_asymm h1]
    · simp only [ltChars, h1, Nat.lt_irrefl, if_false] at h ⊢
      exact ltChars_asymm h
    · simp [ltChars, h1, Nat.lt_asymm h1] at h

theorem ltChars_eq_of_not : ∀ {a b : List Char},
    ltChars a b = false → ltChars b a = false → a = b
  | [], [], _, _ => rfl
  | [], _ :: _, h, _ => by simp [ltChars] at h
  | _ :: _, [], _, h' => by simp [ltChars] at h'
  | a :: as, b :: bs, h, h' => by
    rcases Nat.lt_trichotomy a.toNat b.toNat with h1 | h1 | h1
    · simp [ltChars, h1] at h
    · simp only [ltChars, h1, Nat.lt_irrefl, if_false] at h h'
      rw [Char.ext (UInt32.ext h1), ltChars_eq_of_not h h']
    · simp [ltChars, h1] at h'

theorem ltChars_trans : ∀ {a b c : List Char},
    ltChars a b = true → ltChars b c = true → ltChars a c = true
  | [], b, [], h, h' => by cases b <;> simp [ltChars] at h h'
  | [], _, _ :: _, _, _ => by simp [ltChars]
  | _ :: _, b, [], _, h' => by cases b <;> simp [ltChars] at h'
  | _ :: _, [], _ :: _, h, _ => by simp [ltChars] at h
  | a :: as, b :: bs, c :: cs, h, h' => by
    simp only [ltChars] at h h' ⊢
    by_cases h1 : a.toNat < b.toNat
    · by_cases h2 : b.toNat < c.toNat
      · rw [if_pos (Nat.lt_trans h1 h2)]
      · rw [if_neg h2] at h'
        by_cases h3 : c.toNat < b.toNat
        · rw [if_pos h3] at h'; exact absurd h' (by simp)
        · have hac : a.toNat < c.toNat := by omega
          rw [if_pos hac]
    · rw [if_neg h1] at h
      by_cases h4 : b.toNat < a.toNat
      · rw [if_pos h4] at h; exact absurd h (by simp)
      · rw [if_neg h4] at h
        by_cases h2 : b.toNat < c.toNat
        · have hac : a.toNat < c.toNat := by omega
          rw [if_pos hac]
        · rw [if_neg h2] at h'
          by_cases h3 : c.toNat < b.toNat
          · rw [if_pos h3] at h'; exact absurd h' (by simp)
          · rw [if_neg h3] at h'
            have hna : ¬ a.toNat < c.toNat := by omega
            have hnc : ¬ c.toNat < a.toNat := by omega
            rw [if_neg hna, if_neg hnc]
            exact ltChars_trans h h'

/-- `a ≤ b` in code-point order: `b` is not strictly below `a`. -/
def strLe (a b : String) : Prop := ltChars b.data a.data = false

instance : DecidableRel strLe := fun a b =>
  inferInstanceAs (Decidable (ltChars b.data a.data = false))

instance : IsTotal String strLe :=
  ⟨fun a b => by
    unfold strLe
    rcases hba : ltChars b.data a.data with _ | _
    · exact Or.inl rfl
    · exact Or.inr (ltChars_asymm hba)⟩

instance : IsTrans String strLe :=
  ⟨fun a b c hab hbc => by
    unfold strLe at *
    rcases hca : ltChars c.data a.data with _ | _
    · rfl
    · rcases hbc2 : ltChars b.data c.data with _ | _
      · rw [← ltChars_eq_of_not hbc2 hbc] at hca
        rw [hca] at hab
        exact absurd hab (by simp)
      · rw [ltChars_trans hbc2 hca] at hab
        exact absurd hab (by simp)⟩

instance : IsAntisymm String strLe :=
  ⟨fun a b hab hba => by
    unfold strLe at hab hba
    have h := ltChars_eq_of_not hba hab
    cases a
    cases b
    exact congrArg String.mk h⟩

/-- `sorted(l)` for a list of strings. -/
def sortStrings (l : List String) : List String := l.insertionSort strLe

theorem sortStrings_perm (l : List String) : (sortStrings l).Perm l :=
  List.perm_insertionSort _ _

theorem sortStrings_sorted (l : List String) : (sortStrings l).Sorted strLe :=
  List.sorted_insertionSort _ _

/-- Two permuted lists sort to the same list. -/
theorem sortStrings_congr {l₁ l₂ : List String} (h : l₁.Perm l₂) :
    sortStrings l₁ = sortStrings l₂ :=
  List.eq_of_perm_of_sorted
    ((sortStrings_perm l₁).trans (h.trans (sortStrings_perm l₂).symm))
    (sortStrings_sorted l₁) (sortStrings_sorted l₂)

/-- `sorted(list(s))` for a Python set `s` of strings: the unique ascending
listing of a `Finset String`. -/
def sortedValues (s : Finset String) : List String :=
  Quot.lift sortStrings (fun _ _ h => sortStrings_congr h) s.val

theorem mem_sortedValues {a : String} {s : Finset String} :
    a ∈ sortedValues s ↔ a ∈ s := by
  rcases s with ⟨m, nd⟩
  induction m using Quot.ind with
  | _ l =>
    exact ⟨fun h => (sortStrings_perm l).mem_iff.mp h,
           fun h => (sortStrings_perm l).mem_iff.mpr h⟩

theorem sortedValues_toFinset (s : Finset String) : (sortedValues s).toFinset = s := by
  ext a
  simp [List.mem_toFinset, mem_sortedValues]

theorem sortedValues_nodup (s : Finset String) : (sortedValues s).Nodup := by
  rcases s with ⟨m, nd⟩
  induction m using Quot.ind with
  | _ l => exact (sortStrings_perm l).nodup_iff.mpr nd

/-! ## The Route53 record-set data model -/

/-- A resource record set as it appears in a `list_resource_record_sets`
response: `Name`, `Type`, `TTL` and the optional `ResourceRecords` values. -/
structure RRSet where
  name : String
  rtype : String
  ttl : Nat
  resourceRecords : Option (List String)
deriving DecidableEq, Repr

/-- One page of a paginated listing response: the record sets plus the
`IsTruncated` flag (`true` means a continuation cursor follows). -/
structure Page where
  rrsets : List RRSet
  isTruncated : Bool
deriving DecidableEq, Repr

/-- The `Action` of a change in a `change_resource_record_sets` batch. -/
inductive ChangeAction
  | upsert
  | delete
deriving DecidableEq, Repr

/-- The record set carried by a change: name, type, the full value list and
the TTL, exactly the fields `main.py` places in the change batch. -/
structure WriteRRSet where
  name : String
  rtype : String
  resourceRecords : List String
  ttl : Nat
deriving DecidableEq, Repr

/-- A single change of a change batch. -/
structure Change where
  action : ChangeAction
  rrset : WriteRRSet
deriving DecidableEq, Repr

/-- `main.py` lines 51-52: `add_record` appends a trailing dot to the zone
name when it is missing (`zone_name.endswith(".")` checks the last
character). -/
def dotTerminate (zoneName : String) : String :=
  if zoneName.data.getLast? == some '.' then zoneName else zoneName ++ "."

/-- The record name `f"{hostname}.{zone_name}"` used in both the listing
filter and the change batch. -/
def recordName (hostname zoneName : String) : String :=
  hostname ++ "." ++ zoneName

/-- The key test of `applyChange` below and of `add_record`'s idempotence
argument: same `Name` and same `Type`. -/
def keyMatches (name rtype : String) (rr : RRSet) : Bool :=
  rr.name == name && rr.rtype == rtype

/-- `main.py` lines 82-86: a listed record set contributes to the merge iff
its name is exactly the dot-terminated target, its type is `"A"` and it has
a `ResourceRecords` key. -/
def rrSelected (target : String) (rr : RRSet) : Bool :=
  rr.name == target && rr.rtype == "A" && rr.resourceRecords.isSome

/-- `for rr in rr_set["ResourceRecords"]: ip_set.add(rr["Value"])`. -/
def insertValues (s : Finset String) (vs : List String) : Finset String :=
  vs.foldl (fun s v => insert v s) s

/-- Processing of one listed record set in `add_record`'s merge loop. -/
def scanRRSet (target : String) (s : Finset String) (rr : RRSet) : Finset String :=
  if rrSelected target rr then insertValues s (rr.resourceRecords.getD []) else s

/-- Processing of one page of listing results in `add_record`'s merge loop. -/
def scanPage (target : String) (s : Finset String) (rrsets : List RRSet) : Finset String :=
  rrsets.foldl (scanRRSet target) s

/-- The pages the `while True` loop of `add_record` actually consumes: one
page per iteration, stopping after the first page whose `IsTruncated` is
false. -/
def drainPages : List Page → List (List RRSet)
  | [] => []
  | p :: rest => if p.isTruncated then p.rrsets :: drainPages rest else [p.rrsets]

/-- The final `ip_set` of `add_record`: seeded with the instance's own
address (line 63) and grown over every drained page. -/
def addIpSet (target instanceIp : String) (pages : List Page) : Finset String :=
  (drainPages pages).foldl (scanPage target) {instanceIp}

/-- The change batch issued by `add_record` (lines 99-114): a single UPSERT
of the dot-terminated name, type `A`, the sorted merged value list and the
given TTL. -/
def add_record (zoneName hostname instanceIp : String) (ttl : Nat) (pages : List Page) :
    List Change :=
  [⟨ChangeAction.upsert,
    ⟨recordName hostname (dotTerminate zoneName), "A",
     sortedValues (addIpSet (recordName hostname (dotTerminate zoneName)) instanceIp pages),
     ttl⟩⟩]

/-- The values carried by a change batch, in batch order. -/
def changeValues (cs : List Change) : List String :=
  cs.foldr (fun c acc => c.rrset.resourceRecords ++ acc) []

/-- Specification-side description of what the merge loop reads: the values
of the selected record sets, in listing order. -/
def matchingValues (target : String) (rrsets : List RRSet) : List String :=
  ((rrsets.filter (rrSelected target)).map (fun rr => rr.resourceRecords.getD [])).flatten

/-- A well-formed paginated listing: at least one page, every page but the
last reports truncation, and the last one does not. -/
def wellPaged : List Page → Bool
  | [] => false
  | [p] => !p.isTruncated
  | p :: rest => p.isTruncated && wellPaged rest

/-! ## Zone evolution

Route53 semantics of applying a change batch to a zone, used to state the
fan-in and idempotence properties of sequential `add_record` calls: an
UPSERT replaces the record set with the same name and type, or creates it;
a DELETE removes it. -/

/-- Apply one change to a zone (a list of record sets). -/
def applyChange (zone : List RRSet) (c : Change) : List RRSet :=
  match c.action with
  | ChangeAction.upsert =>
    if zone.any (keyMatches c.rrset.name c.rrset.rtype) then
      zone.map (fun rr =>
        if keyMatches c.rrset.name c.rrset.rtype rr then
          ⟨c.rrset.name, c.rrset.rtype, c.rrset.ttl, some c.rrset.resourceRecords⟩
        else rr)
    else zone ++ [⟨c.rrset.name, c.rrset.rtype, c.rrset.ttl, some c.rrset.resourceRecords⟩]
  | ChangeAction.delete =>
    zone.filter (fun rr => !(keyMatches c.rrset.name c.rrset.rtype rr))

/-- Apply a change batch in order. -/
def applyChanges (zone : List RRSet) (cs : List Change) : List RRSet :=
  cs.foldl applyChange zone

/-- One sequential `add_record` call for address `ip` against a zone whose
full content the listing returns in a single non-truncated page. -/
def addStep (zoneName hostname : String) (ttl : Nat) (zone : List RRSet) (ip : String) :
    List RRSet :=
  applyChanges zone (add_record zoneName hostname ip ttl [⟨zone, false⟩])

/-- Sequential `add_record` calls, one per address, in list order — the
serialized execution the lock guarantees. -/
def addAll (zoneName hostname : String) (ttl : Nat) (zone : List RRSet) (ips : List String) :
    List RRSet :=
  ips.foldl (addStep zoneName hostname ttl) zone

/-- The values of the record set stored in a zone under a name and type. -/
def lookupValues (zone : List RRSet) (name rtype : String) : Option (List String) :=
  (zone.find? (keyMatches name rtype)).bind (fun rr => rr.resourceRecords)

/-! ## `remove_record` (lines 133-189)

`remove_record` takes the listing response it received (the zone name is
used as passed — this function does not dot-terminate it), drops the
instance's address while collecting every other value into a Python set,
and converts that set to a list with `list(ip_set)` — with NO `sorted`
call, so the emitted order is CPython's unspecified, hash-randomized set
iteration order.  The embedding therefore receives the enumeration as an
explicit argument `enum`; an execution of the Python code corresponds to
an `enum` that lists the elements of the set exactly once
(`setEnumOk enum s` below). -/

/-- The `ip_set` built by `remove_record` (lines 149-154): every value of
every returned record set, except the instance's own address. -/
def removeIpSet (instanceIp : String) (rrsets : List RRSet) : Finset String :=
  rrsets.foldl
    (fun s rr =>
      (rr.resourceRecords.getD []).foldl
        (fun s v => if v == instanceIp then s else insert v s) s)
    ∅

/-- `enum` is a possible result of CPython's `list(ip_set)`: each element
of the set exactly once, in some order. -/
def setEnumOk (enum : List String) (s : Finset String) : Prop :=
  enum.Nodup ∧ enum.toFinset = s

/-- The change batch issued by `remove_record` (lines 155-189): an UPSERT
with the remaining values when any remain, otherwise a DELETE supplying the
instance's address.  The TTL written is the function's `ttl` argument. -/
def remove_record (zoneName hostname instanceIp : String) (ttl : Nat)
    (rrsets : List RRSet) (enum : List String) : List Change :=
  if enum.isEmpty then
    [⟨ChangeAction.delete, ⟨recordName hostname zoneName, "A", [instanceIp], ttl⟩⟩]
  else
    [⟨ChangeAction.upsert, ⟨recordName hostname zoneName, "A", enum, ttl⟩⟩]

/-! ## The DynamoDB lock (lines 247-284)

`lock` is a context manager: a conditional-put loop with a 30-second
budget and a fixed 1-second sleep between attempts, then a `try/finally`
whose `finally` deletes the lock row.  The put attempts' outcomes are an
explicit trace; wall-clock time advances by one second per sleep. -/

/-- Outcome of one `put_item` attempt with the
`attribute_not_exists(#r)` condition. -/
inductive PutOutcome
  | ok
  | condFailed
  | err (code : String)
deriving DecidableEq, Repr

/-- Result of the acquisition loop. -/
inductive LockOutcome
  | acquired (waited : Nat)
  | timedOut
  | errored (code : String)
deriving DecidableEq, Repr

/-- `timeout = 30` (line 249). -/
def lockTimeout : Nat := 30

/-- The acquisition loop of `lock` (lines 253-275), driven by the trace of
`put_item` outcomes.  `elapsed` is seconds since entry; the loop gives up
once `elapsed` exceeds `lockTimeout`, acquires on a successful put, sleeps
one second and retries on `ConditionalCheckFailedException`, and re-raises
any other client error immediately.  `none` means the supplied trace ended
before the loop resolved. -/
def lockAcquire : Nat → List PutOutcome → Option LockOutcome
  | elapsed, [] => if elapsed > lockTimeout then some LockOutcome.timedOut else none
  | elapsed, r :: rest =>
    if elapsed > lockTimeout then some LockOutcome.timedOut
    else
      match r with
      | PutOutcome.ok => some (LockOutcome.acquired elapsed)
      | PutOutcome.err c => some (LockOutcome.errored c)
      | PutOutcome.condFailed => lockAcquire (elapsed + 1) rest

/-- Observable events of one `with lock(...)` use. -/
inductive LockEvent
  | putItem (resourceId : String) (outcome : PutOutcome)
  | sleepOneSecond
  | bodyRun
  | deleteItem (resourceId : String)
deriving DecidableEq, Repr

/-- How the critical section's body terminates. -/
inductive BodyResult
  | ok
  | raises (e : String)
deriving DecidableEq, Repr

/-- The exception behaviour of the body as an `Except`. -/
def bodyExcept : BodyResult → Except String Unit
  | BodyResult.ok => Except.ok ()
  | BodyResult.raises e => Except.error e

/-- The events of the acquisition loop alone (no delete is ever issued
while acquiring). -/
def acquireTrace (rid : String) : Nat → List PutOutcome → List LockEvent
  | _, [] => []
  | elapsed, r :: rest =>
    if elapsed > lockTimeout then []
    else
      match r with
      | PutOutcome.condFailed =>
        LockEvent.putItem rid PutOutcome.condFailed :: LockEvent.sleepOneSecond ::
          acquireTrace rid (elapsed + 1) rest
      | o => [LockEvent.putItem rid o]

/-- The `RuntimeError` message of line 255-257. -/
def lockTimeoutMsg : String := "Failed to lock DNS lock table after 30 seconds"

/-- One full `with lock(my_resource_id): body` execution: the acquisition
loop, then — only if acquisition succeeded — the body inside `try` with
`dyn_table.delete_item` in `finally` (lines 276-284), so the delete runs
whether the body returns or raises, and never runs when acquisition
failed. -/
def lockRun (rid : String) (puts : List PutOutcome) (body : BodyResult) :
    Option (List LockEvent × Except String Unit) :=
  match lockAcquire 0 puts with
  | none => none
  | some LockOutcome.timedOut =>
    some (acquireTrace rid 0 puts, Except.error lockTimeoutMsg)
  | some (LockOutcome.errored c) =>
    some (acquireTrace rid 0 puts, Except.error c)
  | some (LockOutcome.acquired _) =>
    some (acquireTrace rid 0 puts ++ [LockEvent.bodyRun, LockEvent.deleteItem rid],
      bodyExcept body)

/-- Occurrences of the lock-row delete for a resource id in a trace. -/
def countDelete (rid : String) : List LockEvent → Nat
  | [] => 0
  | LockEvent.deleteItem r :: rest =>
    (if r == rid then 1 else 0) + countDelete rid rest
  | _ :: rest => countDelete rid rest

/-! ## Two concurrent acquirers

An interleaving model of two independent invocations contending for the
same lock row.  The shared state is whether the row exists (DynamoDB's
`attribute_not_exists(#r)` conditional insert succeeds exactly when it
does not); each process attempts the insert, enters the critical section
on success, goes back to waiting on `ConditionalCheckFailedException`,
and deletes the row on release. -/

/-- Where one invocation stands. -/
inductive ProcState
  | idle
  | waiting
  | holding
  | released
deriving DecidableEq, Repr

/-- `true` when the process is still trying to acquire. -/
def wantsLock : ProcState → Bool
  | ProcState.idle => true
  | ProcState.waiting => true
  | _ => false

/-- State of the lock row plus the two contenders. -/
structure LockSys where
  rowPresent : Bool
  pc1 : ProcState
  pc2 : ProcState
deriving DecidableEq, Repr

/-- Program counter of contender `i`. -/
def pcOf (s : LockSys) (i : Bool) : ProcState :=
  if i then s.pc1 else s.pc2

/-- Replace contender `i`'s program counter. -/
def withPc (s : LockSys) (i : Bool) (p : ProcState) : LockSys :=
  if i then { s with pc1 := p } else { s with pc2 := p }

/-- Interleaved steps: a conditional insert against an absent row succeeds
and the caller holds the lock; against a present row it fails and the
caller keeps waiting; a holder's release deletes the row. -/
inductive LockStep : LockSys → LockSys → Prop
  | acquireFree (s : LockSys) (i : Bool)
      (hw : wantsLock (pcOf s i) = true) (hrow : s.rowPresent = false) :
      LockStep s (withPc { s with rowPresent := true } i ProcState.holding)
  | acquireBusy (s : LockSys) (i : Bool)
      (hw : wantsLock (pcOf s i) = true) (hrow : s.rowPresent = true) :
      LockStep s (withPc s i ProcState.waiting)
  | releaseHeld (s : LockSys) (i : Bool) (hh : pcOf s i = ProcState.holding) :
      LockStep s (withPc { s with rowPresent := false } i ProcState.released)

/-- Both contenders start outside the critical section with no lock row. -/
def lockInit : LockSys := ⟨false, ProcState.idle, ProcState.idle⟩

/-- States the system can actually reach. -/
def LockReachable (s : LockSys) : Prop :=
  Relation.ReflTransGen LockStep lockInit s

/-- Inductive invariant: a holder exists only while the row is present,
and never two holders at once. -/
def lockInv (s : LockSys) : Prop :=
  (s.rowPresent = false → s.pc1 ≠ ProcState.holding ∧ s.pc2 ≠ ProcState.holding)
  ∧ ¬(s.pc1 = ProcState.holding ∧ s.pc2 = ProcState.holding)

/-! ## The lifecycle-hook branch of `lambda_handler` (lines 301-329)

The branch taken when the event's `detail` carries a `LifecycleTransition`
and a recognized `LifecycleHookName`.  Its `try` block runs the removal
under the lock only for the TERMINATING transition, and its `finally`
block always calls `complete_lifecycle_action(..., "CONTINUE")`.  There is
no `except` clause, so an exception from the body propagates out of the
handler after the acknowledgment. -/

/-- The `detail` fields of a lifecycle-hook event. -/
structure HookDetail where
  lifecycleHookName : String
  lifecycleTransition : String
  autoScalingGroupName : String
  lifecycleActionToken : String
  ec2InstanceId : String
deriving DecidableEq, Repr

/-- The hook names line 303 recognizes. -/
def recognizedHooks : List String :=
  ["update-dns-launching", "update-dns-terminating"]

/-- Externally visible calls made by the handler. -/
inductive HandlerAction
  | acquireLock (resourceId : String)
  | removeRecordCall (instanceId : String)
  | releaseLock (resourceId : String)
  | completeLifecycle (hook asg token inst result : String)
deriving DecidableEq, Repr

/-- The hook branch of `lambda_handler`: given the lock-acquisition outcome
and how the removal body terminates, the actions performed and the
handler's own termination.  `none` means the hook branch is not taken
(unrecognized hook name — control goes to the state-change branch
instead). -/
def lambda_handler_hook (d : HookDetail) (acq : LockOutcome) (removal : BodyResult) :
    Option (List HandlerAction × Except String Unit) :=
  if d.lifecycleHookName ∈ recognizedHooks then
    let bodyPair :=
      if d.lifecycleTransition == "autoscaling:EC2_INSTANCE_TERMINATING" then
        match acq with
        | LockOutcome.acquired _ =>
          ([HandlerAction.acquireLock "update-dns",
            HandlerAction.removeRecordCall d.ec2InstanceId,
            HandlerAction.releaseLock "update-dns"],
           bodyExcept removal)
        | LockOutcome.timedOut => ([], Except.error lockTimeoutMsg)
        | LockOutcome.errored c => ([], Except.error c)
      else ([], Except.ok ())
    some
      (bodyPair.1 ++
        [HandlerAction.completeLifecycle d.lifecycleHookName d.autoScalingGroupName
          d.lifecycleActionToken d.ec2InstanceId "CONTINUE"],
       bodyPair.2)
  else none

/-! ## Hostname resolution (lines 228-244) -/

/-- The characters before the first dot: `s.split(".")[0]`. -/
def takeUntilDot : List Char → List Char
  | [] => []
  | c :: cs => if c == '.' then [] else c :: takeUntilDot cs

/-- `get_instance_hostname`: the first label of the instance's platform
private DNS name (line 237), `PrivateDnsName.split(".")[0]`. -/
def get_instance_hostname (privateDnsName : String) : String :=
  ⟨takeUntilDot privateDnsName.data⟩

/-- `resolve_hostname` (lines 240-244): the configured `ROUTE53_HOSTNAME`
value is returned verbatim unless it is the private-DNS sentinel
`"_PrivateDnsName_"`, in which case the platform hostname is used.  No
other sentinel and no prefix handling exists in this function. -/
def resolve_hostname (route53Hostname : String) (privateDnsName : String) : String :=
  if route53Hostname == "_PrivateDnsName_" then get_instance_hostname privateDnsName
  else route53Hostname

/-! ## Merge-set lemmas -/

theorem insertValues_toFinset (s : Finset String) (vs : List String) :
    insertValues s vs = s ∪ vs.toFinset := by
  induction vs generalizing s with
  | nil => simp [insertValues]
  | cons v vs ih =>
    show insertValues (insert v s) vs = _
    rw [ih, List.toFinset_cons, Finset.insert_union, Finset.union_insert]

theorem matchingValues_cons (target : String) (rr : RRSet) (rest : List RRSet) :
    matchingValues target (rr :: rest)
      = (if rrSelected target rr then rr.resourceRecords.getD [] else [])
          ++ matchingValues target rest := by
  unfold matchingValues
  by_cases h : rrSelected target rr <;> simp [h, List.filter_cons]

theorem matchingValues_append (target : String) (l₁ l₂ : List RRSet) :
    matchingValues target (l₁ ++ l₂)
      = matchingValues target l₁ ++ matchingValues target l₂ := by
  unfold matchingValues
  simp [List.filter_append]

theorem scanRRSet_toFinset (target : String) (s : Finset String) (rr : RRSet) :
    scanRRSet target s rr
      = s ∪ (if rrSelected target rr then (rr.resourceRecords.getD []).toFinset else ∅) := by
  unfold scanRRSet
  split_ifs with h
  · rw [insertValues_toFinset]
  · simp

theorem scanPage_toFinset (target : String) (rrsets : List RRSet) (s : Finset String) :
    scanPage target s rrsets = s ∪ (matchingValues target rrsets).toFinset := by
  induction rrsets generalizing s with
  | nil => simp [scanPage, matchingValues]
  | cons rr rest ih =>
    show scanPage target (scanRRSet target s rr) rest = _
    rw [ih, scanRRSet_toFinset, matchingValues_cons]
    by_cases h : rrSelected target rr
    · simp only [if_pos h, List.toFinset_append, Finset.union_assoc]
    · simp [h]

theorem foldl_scanPage (target : String) (ds : List (List RRSet)) (s : Finset String) :
    ds.foldl (scanPage target) s = s ∪ (matchingValues target ds.flatten).toFinset := by
  induction ds generalizing s with
  | nil => simp [matchingValues]
  | cons d ds ih =>
    show ds.foldl (scanPage target) (scanPage target s d) = _
    rw [ih, scanPage_toFinset, List.flatten_cons, matchingValues_append,
      List.toFinset_append, Finset.union_assoc]

/-- The merged set is the instance's address plus every selected value of
every drained page. -/
theorem addIpSet_eq (target instanceIp : String) (pages : List Page) :
    addIpSet target instanceIp pages
      = insert instanceIp (matchingValues target (drainPages pages).flatten).toFinset := by
  unfold addIpSet
  rw [foldl_scanPage, ← Finset.insert_eq]

theorem scanPage_filter (target : String) (s : Finset String) (rrsets : List RRSet) :
    scanPage target s (rrsets.filter (rrSelected target)) = scanPage target s rrsets := by
  rw [scanPage_toFinset, scanPage_toFinset]
  unfold matchingValues
  rw [List.filter_filter]
  simp

theorem drainPages_map (g : List RRSet → List RRSet) (pages : List Page) :
    drainPages (pages.map (fun p => ⟨g p.rrsets, p.isTruncated⟩))
      = (drainPages pages).map g := by
  induction pages with
  | nil => rfl
  | cons p rest ih =>
    show drainPages (⟨g p.rrsets, p.isTruncated⟩ :: _) = _
    unfold drainPages
    by_cases h : p.isTruncated <;> simp [h, ih]

theorem drainPages_of_wellPaged : ∀ {pages : List Page}, wellPaged pages = true →
    drainPages pages = pages.map Page.rrsets
  | [], h => by simp [wellPaged] at h
  | [p], h => by
    simp only [wellPaged, Bool.not_eq_eq_eq_not, Bool.not_true] at h
    simp [drainPages, h]
  | p :: q :: rest, h => by
    simp only [wellPaged, Bool.and_eq_true] at h
    show (if p.isTruncated then p.rrsets :: drainPages (q :: rest) else [p.rrsets]) = _
    rw [if_pos h.1, drainPages_of_wellPaged h.2]
    rfl

/-- C10: `add_record`'s change batch is exactly one UPSERT naming the
dot-terminated target record set of type `A`, and record sets that fail the
name/type selection (NS, SOA, other hostnames) contribute nothing: removing
every unselected record set from every listing page leaves the issued
change batch unchanged, so such record sets are never read into the merge
and never written. -/
theorem add_record_frame (zoneName hostname instanceIp : String) (ttl : Nat)
    (pages : List Page) :
    (add_record zoneName hostname instanceIp ttl pages).map
        (fun c => (c.action, c.rrset.name, c.rrset.rtype))
      = [(ChangeAction.upsert, recordName hostname (dotTerminate zoneName), "A")]
  ∧ add_record zoneName hostname instanceIp ttl
      (pages.map (fun p =>
        ⟨p.rrsets.filter (rrSelected (recordName hostname (dotTerminate zoneName))),
         p.isTruncated⟩))
      = add_record zoneName hostname instanceIp ttl pages := by
  refine ⟨rfl, ?_⟩
  unfold add_record
  have hips :
      addIpSet (recordName hostname (dotTerminate zoneName)) instanceIp
        (pages.map (fun p =>
          ⟨p.rrsets.filter (rrSelected (recordName hostname (dotTerminate zoneName))),
           p.isTruncated⟩))
      = addIpSet (recordName hostname (dotTerminate zoneName)) instanceIp pages := by
    unfold addIpSet
    rw [drainPages_map, List.foldl_map]
    have hfun : (fun (s : Finset String) rs =>
        scanPage (recordName hostname (dotTerminate zoneName)) s
          (List.filter (rrSelected (recordName hostname (dotTerminate zoneName))) rs))
        = scanPage (recordName hostname (dotTerminate zoneName)) := by
      funext s rs
      exact scanPage_filter _ s rs
    rw [hfun]
  rw [hips]

/-- C4: for a well-formed paginated listing (every page but the last
truncated, the last one not), the merge loop drains every page before the
write, and every selected value on every page — first, middle or last —
ends up in the written value list. -/
theorem add_record_pagination (zoneName hostname instanceIp : String) (ttl : Nat)
    (pages : List Page) (hp : wellPaged pages = true) :
    drainPages pages = pages.map Page.rrsets
  ∧ ∀ page ∈ pages, ∀ rr ∈ page.rrsets,
      rrSelected (recordName hostname (dotTerminate zoneName)) rr = true →
      ∀ v ∈ rr.resourceRecords.getD [],
        v ∈ changeValues (add_record zoneName hostname instanceIp ttl pages) := by
  refine ⟨drainPages_of_wellPaged hp, ?_⟩
  intro page hpage rr hrr hsel v hv
  have hval : changeValues (add_record zoneName hostname instanceIp ttl pages)
      = sortedValues
          (addIpSet (recordName hostname (dotTerminate zoneName)) instanceIp pages) := by
    simp [changeValues, add_record]
  rw [hval, mem_sortedValues, addIpSet_eq]
  apply Finset.mem_insert_of_mem
  rw [List.mem_toFinset, drainPages_of_wellPaged hp]
  unfold matchingValues
  rw [List.mem_flatten]
  refine ⟨rr.resourceRecords.getD [], ?_, hv⟩
  rw [List.mem_map]
  refine ⟨rr, ?_, rfl⟩
  rw [List.mem_filter]
  refine ⟨?_, hsel⟩
  rw [List.mem_flatten]
  exact ⟨page.rrsets, List.mem_map_of_mem Page.rrsets hpage, hrr⟩

/-! ## Sequential add lemmas -/

/-- The record set an `add_record` UPSERT leaves in the zone. -/
def targetRec (target : String) (ttl : Nat) (s : Finset String) : RRSet :=
  ⟨target, "A", ttl, some (sortedValues s)⟩

theorem keyMatches_targetRec (target : String) (ttl : Nat) (s : Finset String) :
    keyMatches target "A" (targetRec target ttl s) = true := by
  simp [keyMatches, targetRec]

theorem rrSelected_targetRec (target : String) (ttl : Nat) (s : Finset String) :
    rrSelected target (targetRec target ttl s) = true := by
  simp [rrSelected, targetRec]

theorem rrSelected_keyMatches {target : String} {rr : RRSet}
    (h : rrSelected target rr = true) : keyMatches target "A" rr = true := by
  simp only [rrSelected, Bool.and_eq_true] at h
  simp only [keyMatches, Bool.and_eq_true]
  exact h.1

theorem any_eq_false_of (p : RRSet → Bool) (zone : List RRSet)
    (h : ∀ rr ∈ zone, p rr = false) : zone.any p = false := by
  induction zone with
  | nil => rfl
  | cons rr rest ih =>
    simp only [List.any_cons, h rr (List.mem_cons_self rr rest), Bool.false_or]
    exact ih (fun r hr => h r (List.mem_cons_of_mem rr hr))

theorem matchingValues_eq_nil {target : String} {zone : List RRSet}
    (h : ∀ rr ∈ zone, keyMatches target "A" rr = false) :
    matchingValues target zone = [] := by
  unfold matchingValues
  have : zone.filter (rrSelected target) = [] := by
    rw [List.filter_eq_nil_iff]
    intro rr hrr hsel
    have hk := rrSelected_keyMatches hsel
    rw [h rr hrr] at hk
    exact absurd hk (by simp)
  rw [this]
  rfl

theorem map_replace_eq_self (n ty : String) (newRec : RRSet) :
    ∀ (zone : List RRSet), (∀ rr ∈ zone, keyMatches n ty rr = false) →
      zone.map (fun rr => if keyMatches n ty rr then newRec else rr) = zone
  | [], _ => rfl
  | rr :: rest, h => by
    simp only [List.map_cons]
    rw [if_neg (by rw [h rr (List.mem_cons_self rr rest)]; simp),
      map_replace_eq_self n ty newRec rest (fun r hr => h r (List.mem_cons_of_mem rr hr))]

theorem find?_append_of_none (p : RRSet → Bool) :
    ∀ (zone rest : List RRSet), (∀ rr ∈ zone, p rr = false) →
      (zone ++ rest).find? p = rest.find? p
  | [], _, _ => rfl
  | rr :: z, rest, h => by
    rw [List.cons_append,
      List.find?_cons_of_neg _ (by rw [h rr (List.mem_cons_self rr z)]; simp)]
    exact find?_append_of_none p z rest (fun r hr => h r (List.mem_cons_of_mem rr hr))

/-- A single `add_record` against a zone whose full content comes back in
one non-truncated page. -/
theorem addStep_eq (zoneName hostname : String) (ttl : Nat) (zone : List RRSet)
    (ip : String) :
    addStep zoneName hostname ttl zone ip
      = applyChange zone
          ⟨ChangeAction.upsert,
           ⟨recordName hostname (dotTerminate zoneName), "A",
            sortedValues (insert ip
              (matchingValues (recordName hostname (dotTerminate zoneName)) zone).toFinset),
            ttl⟩⟩ := by
  unfold addStep applyChanges add_record
  rw [List.foldl_cons, List.foldl_nil, addIpSet_eq]
  simp [drainPages]

/-- Adding to a zone that holds no record of the target name and type
appends the singleton record set. -/
theorem addStep_fresh (zoneName hostname : String) (ttl : Nat) (zone : List RRSet)
    (ip : String)
    (hz : ∀ rr ∈ zone,
      keyMatches (recordName hostname (dotTerminate zoneName)) "A" rr = false) :
    addStep zoneName hostname ttl zone ip
      = zone ++ [targetRec (recordName hostname (dotTerminate zoneName)) ttl {ip}] := by
  rw [addStep_eq]
  unfold applyChange
  simp only
  rw [any_eq_false_of _ zone hz]
  simp only [Bool.false_eq_true, if_false]
  rw [matchingValues_eq_nil hz]
  rfl

/-- Adding to a zone of the shape `zone ++ [target record]` (no other
record of the target key) merges the new address into the stored set. -/
theorem addStep_existing (zoneName hostname : String) (ttl : Nat) (zone : List RRSet)
    (ip : String) (s : Finset String)
    (hz : ∀ rr ∈ zone,
      keyMatches (recordName hostname (dotTerminate zoneName)) "A" rr = false) :
    addStep zoneName hostname ttl
        (zone ++ [targetRec (recordName hostname (dotTerminate zoneName)) ttl s]) ip
      = zone ++ [targetRec (recordName hostname (dotTerminate zoneName)) ttl (insert ip s)] := by
  rw [addStep_eq]
  unfold applyChange
  simp only
  rw [matchingValues_append, matchingValues_eq_nil hz]
  have hsel := rrSelected_targetRec (recordName hostname (dotTerminate zoneName)) ttl s
  have hmv : matchingValues (recordName hostname (dotTerminate zoneName))
      [targetRec (recordName hostname (dotTerminate zoneName)) ttl s] = sortedValues s := by
    rw [matchingValues_cons, if_pos hsel]
    simp [targetRec, matchingValues]
  rw [hmv, List.nil_append, sortedValues_toFinset]
  have hany : (zone ++ [targetRec (recordName hostname (dotTerminate zoneName)) ttl s]).any
      (keyMatches (recordName hostname (dotTerminate zoneName)) "A") = true := by
    rw [List.any_append]
    simp [keyMatches_targetRec]
  rw [hany]
  simp only [if_true]
  rw [List.map_append,
    map_replace_eq_self _ _ _ zone hz,
    List.map_cons, List.map_nil,
    if_pos (keyMatches_targetRec (recordName hostname (dotTerminate zoneName)) ttl s)]
  rfl

theorem applyChange_upsert_replace (zone : List RRSet) (n ty : String)
    (vals : List String) (t : Nat) (hany : zone.any (keyMatches n ty) = true) :
    applyChange zone ⟨ChangeAction.upsert, ⟨n, ty, vals, t⟩⟩
      = zone.map (fun rr => if keyMatches n ty rr then ⟨n, ty, t, some vals⟩ else rr) := by
  unfold applyChange
  rw [hany]
  simp

theorem addAll_aux (zoneName hostname : String) (ttl : Nat) (zone : List RRSet)
    (hz : ∀ rr ∈ zone,
      keyMatches (recordName hostname (dotTerminate zoneName)) "A" rr = false) :
    ∀ (rest : List String) (s : Finset String),
      addAll zoneName hostname ttl
        (zone ++ [targetRec (recordName hostname (dotTerminate zoneName)) ttl s]) rest
      = zone ++ [targetRec (recordName hostname (dotTerminate zoneName)) ttl
          (s ∪ rest.toFinset)]
  | [], s => by simp [addAll]
  | a :: rest, s => by
    unfold addAll
    rw [List.foldl_cons, addStep_existing zoneName hostname ttl zone a s hz]
    have ih := addAll_aux zoneName hostname ttl zone hz rest (insert a s)
    unfold addAll at ih
    rw [ih, List.toFinset_cons, Finset.union_insert, Finset.insert_union]

/-- Fan-in: sequential adds of the addresses in `ips`, starting from a zone
holding no record of the target key, leave the target record holding the
sorted deduplication of `ips`. -/
theorem addAll_values (zoneName hostname : String) (ttl : Nat) (zone : List RRSet)
    (ips : List String)
    (hz : ∀ rr ∈ zone,
      keyMatches (recordName hostname (dotTerminate zoneName)) "A" rr = false)
    (hips : ips ≠ []) :
    lookupValues (addAll zoneName hostname ttl zone ips)
        (recordName hostname (dotTerminate zoneName)) "A"
      = some (sortedValues ips.toFinset) := by
  match ips, hips with
  | a :: rest, _ =>
    unfold addAll
    rw [List.foldl_cons, addStep_fresh zoneName hostname ttl zone a hz]
    have haux := addAll_aux zoneName hostname ttl zone hz rest {a}
    unfold addAll at haux
    rw [haux]
    unfold lookupValues
    rw [find?_append_of_none _ zone _ hz,
      List.find?_cons_of_pos _ (keyMatches_targetRec _ ttl _)]
    show some (sortedValues ({a} ∪ rest.toFinset)) = _
    rw [List.toFinset_cons, ← Finset.insert_eq]

theorem matchingValues_map_subset (target : String) (ttl : Nat) (s : Finset String) :
    ∀ (zone : List RRSet),
      (matchingValues target
        (zone.map (fun rr => if keyMatches target "A" rr
          then (⟨target, "A", ttl, some (sortedValues s)⟩ : RRSet) else rr))).toFinset ⊆ s
  | [] => by simp [matchingValues]
  | rr :: rest => by
    rw [List.map_cons, matchingValues_cons]
    by_cases h : keyMatches target "A" rr = true
    · rw [if_pos h,
        if_pos (show rrSelected target
          (⟨target, "A", ttl, some (sortedValues s)⟩ : RRSet) = true by simp [rrSelected]),
        List.toFinset_append]
      have hfin : ((⟨target, "A", ttl, some (sortedValues s)⟩ :
          RRSet).resourceRecords.getD []).toFinset = s := by
        show (sortedValues s).toFinset = s
        exact sortedValues_toFinset s
      rw [hfin]
      exact Finset.union_subset (Finset.Subset.refl s)
        (matchingValues_map_subset target ttl s rest)
    · rw [if_neg h]
      have hsel : rrSelected target rr = false := by
        cases hs : rrSelected target rr
        · rfl
        · exact absurd (rrSelected_keyMatches hs) h
      rw [if_neg (by rw [hsel]; simp), List.nil_append]
      exact matchingValues_map_subset target ttl s rest

theorem matchingValues_map_replace (target : String) (ttl : Nat) (s : Finset String) :
    ∀ (zone : List RRSet), zone.any (keyMatches target "A") = true →
      (matchingValues target
        (zone.map (fun rr => if keyMatches target "A" rr
          then (⟨target, "A", ttl, some (sortedValues s)⟩ : RRSet) else rr))).toFinset = s
  | [], hany => by simp at hany
  | rr :: rest, hany => by
    rw [List.map_cons, matchingValues_cons]
    by_cases h : keyMatches target "A" rr = true
    · rw [if_pos h,
        if_pos (show rrSelected target
          (⟨target, "A", ttl, some (sortedValues s)⟩ : RRSet) = true by simp [rrSelected]),
        List.toFinset_append]
      have hfin : ((⟨target, "A", ttl, some (sortedValues s)⟩ :
          RRSet).resourceRecords.getD []).toFinset = s := by
        show (sortedValues s).toFinset = s
        exact sortedValues_toFinset s
      rw [hfin]
      exact Finset.union_eq_left.mpr (matchingValues_map_subset target ttl s rest)
    · rw [if_neg h]
      have hsel : rrSelected target rr = false := by
        cases hs : rrSelected target rr
        · rfl
        · exact absurd (rrSelected_keyMatches hs) h
      rw [if_neg (by rw [hsel]; simp), List.nil_append]
      have hrest : rest.any (keyMatches target "A") = true := by
        rw [List.any_cons] at hany
        cases hk : keyMatches target "A" rr
        · rw [hk] at hany
          simpa using hany
        · exact absurd hk h
      exact matchingValues_map_replace target ttl s rest hrest

/-- Applying the same `add_record` twice in a row leaves the zone exactly
as the first application left it. -/
theorem addStep_idem (zoneName hostname : String) (ttl : Nat) (zone : List RRSet)
    (ip : String) :
    addStep zoneName hostname ttl (addStep zoneName hostname ttl zone ip) ip
      = addStep zoneName hostname ttl zone ip := by
  by_cases hany :
    zone.any (keyMatches (recordName hostname (dotTerminate zoneName)) "A") = true
  · rw [addStep_eq zoneName hostname ttl zone ip,
      applyChange_upsert_replace zone _ _ _ _ hany,
      addStep_eq zoneName hostname ttl _ ip,
      matchingValues_map_replace _ ttl _ zone hany, Finset.insert_idem]
    have hany2 : (zone.map (fun rr =>
        if keyMatches (recordName hostname (dotTerminate zoneName)) "A" rr
        then (⟨recordName hostname (dotTerminate zoneName), "A", ttl,
          some (sortedValues (insert ip
            (matchingValues (recordName hostname (dotTerminate zoneName)) zone).toFinset))⟩ : RRSet)
        else rr)).any
        (keyMatches (recordName hostname (dotTerminate zoneName)) "A") = true := by
      rw [List.any_map]
      have hfun : (keyMatches (recordName hostname (dotTerminate zoneName)) "A") ∘
          (fun rr =>
            if keyMatches (recordName hostname (dotTerminate zoneName)) "A" rr
            then (⟨recordName hostname (dotTerminate zoneName), "A", ttl,
              some (sortedValues (insert ip
                (matchingValues (recordName hostname (dotTerminate zoneName)) zone).toFinset))⟩ : RRSet)
            else rr)
          = keyMatches (recordName hostname (dotTerminate zoneName)) "A" := by
        funext rr
        by_cases h : keyMatches (recordName hostname (dotTerminate zoneName)) "A" rr = true
        · simp only [Function.comp_apply, if_pos h]
          rw [h]
          simp [keyMatches]
        · simp only [Function.comp_apply, if_neg h]
      rw [hfun, hany]
    rw [applyChange_upsert_replace _ _ _ _ _ hany2, List.map_map]
    apply List.map_congr_left
    intro rr _
    by_cases h : keyMatches (recordName hostname (dotTerminate zoneName)) "A" rr = true
    · simp only [Function.comp_apply, if_pos h]
      rw [if_pos (by simp [keyMatches])]
    · simp only [Function.comp_apply, if_neg h]
  · have hz : ∀ rr ∈ zone,
        keyMatches (recordName hostname (dotTerminate zoneName)) "A" rr = false := by
      intro rr hrr
      cases hk : keyMatches (recordName hostname (dotTerminate zoneName)) "A" rr
      · rfl
      · exact absurd (List.any_eq_true.mpr ⟨rr, hrr, hk⟩) hany
    rw [addStep_fresh zoneName hostname ttl zone ip hz,
      addStep_existing zoneName hostname ttl zone ip {ip} hz,
      Finset.insert_eq_self.mpr (Finset.mem_singleton_self ip)]

/-- C1: the single UPSERT of `add_record` writes, with the given TTL, the
deterministically sorted deduplication of the instance's address together
with every value of every listed record set whose name is exactly the
dot-terminated target and whose type is `A`; consequently sequential adds
of a set of addresses to a fresh hostname leave exactly that set whatever
the order, and running the same add twice leaves the zone as after one
run. -/
theorem add_record_merge (zoneName hostname instanceIp : String) (ttl : Nat)
    (pages : List Page) (zone : List RRSet) (ips : List String)
    (hpages : wellPaged pages = true)
    (hzone : zone.all (fun rr =>
      !(keyMatches (recordName hostname (dotTerminate zoneName)) "A" rr)) = true)
    (hips : ips ≠ []) :
    add_record zoneName hostname instanceIp ttl pages
      = [⟨ChangeAction.upsert,
          ⟨recordName hostname (dotTerminate zoneName), "A",
           sortedValues (insert instanceIp
             (matchingValues (recordName hostname (dotTerminate zoneName))
               (pages.map Page.rrsets).flatten).toFinset),
           ttl⟩⟩]
  ∧ lookupValues (addAll zoneName hostname ttl zone ips)
        (recordName hostname (dotTerminate zoneName)) "A"
      = some (sortedValues ips.toFinset)
  ∧ (∀ ips', ips.Perm ips' →
      lookupValues (addAll zoneName hostname ttl zone ips')
          (recordName hostname (dotTerminate zoneName)) "A"
        = lookupValues (addAll zoneName hostname ttl zone ips)
            (recordName hostname (dotTerminate zoneName)) "A")
  ∧ (∀ (z : List RRSet) (ip : String),
      addStep zoneName hostname ttl (addStep zoneName hostname ttl z ip) ip
        = addStep zoneName hostname ttl z ip) := by
  have hz : ∀ rr ∈ zone,
      keyMatches (recordName hostname (dotTerminate zoneName)) "A" rr = false := by
    intro rr hrr
    have := List.all_eq_true.mp hzone rr hrr
    simpa using this
  refine ⟨?_, addAll_values zoneName hostname ttl zone ips hz hips, ?_, ?_⟩
  · unfold add_record
    rw [addIpSet_eq, drainPages_of_wellPaged hpages]
  · intro ips' hperm
    have hips' : ips' ≠ [] := by
      intro he
      rw [he] at hperm
      exact hips hperm.eq_nil
    have hfin : ips'.toFinset = ips.toFinset := by
      ext a
      simp [List.mem_toFinset, hperm.mem_iff]
    rw [addAll_values zoneName hostname ttl zone ips' hz hips',
      addAll_values zoneName hostname ttl zone ips hz hips, hfin]
  · intro z ip
    exact addStep_idem zoneName hostname ttl z ip

/-- Witness for C1: two sequential adds of distinct addresses to an empty
zone leave exactly those two addresses, sorted. -/
theorem add_record_merge_witness :
    ([] : List RRSet).all (fun rr =>
        !(keyMatches (recordName "update-dns-test" (dotTerminate "ci-cd.infrahouse.com"))
          "A" rr)) = true
  ∧ (["10.1.3.223", "10.1.2.80"] : List String) ≠ []
  ∧ wellPaged
      [⟨[⟨"update-dns-test.ci-cd.infrahouse.com.", "A", 300, some ["10.1.3.223"]⟩], false⟩]
      = true
  ∧ lookupValues
      (addAll "ci-cd.infrahouse.com" "update-dns-test" 300 [] ["10.1.3.223", "10.1.2.80"])
      (recordName "update-dns-test" (dotTerminate "ci-cd.infrahouse.com")) "A"
      = some ["10.1.2.80", "10.1.3.223"] :=
  ⟨rfl, by decide, rfl,
    ((add_record_merge "ci-cd.infrahouse.com" "update-dns-test" "10.1.2.80" 300
        [⟨[⟨"update-dns-test.ci-cd.infrahouse.com.", "A", 300, some ["10.1.3.223"]⟩], false⟩]
        [] ["10.1.3.223", "10.1.2.80"] rfl rfl (by decide)).2.1).trans (by decide)⟩

/-- Witness for C4: a three-page truncated listing is fully drained and a
selected address on the third page reaches the written value list. -/
theorem add_record_pagination_witness :
    wellPaged
        [⟨[⟨"update-dns-test.ci-cd.infrahouse.com.", "A", 300, some ["10.1.3.223"]⟩], true⟩,
         ⟨[⟨"ci-cd.infrahouse.com.", "NS", 172800, some ["ns-261.awsdns-32.com."]⟩], true⟩,
         ⟨[⟨"update-dns-test.ci-cd.infrahouse.com.", "A", 300, some ["10.1.7.9"]⟩], false⟩]
      = true
  ∧ "10.1.7.9" ∈ changeValues (add_record "ci-cd.infrahouse.com" "update-dns-test"
      "10.1.2.80" 300
      [⟨[⟨"update-dns-test.ci-cd.infrahouse.com.", "A", 300, some ["10.1.3.223"]⟩], true⟩,
       ⟨[⟨"ci-cd.infrahouse.com.", "NS", 172800, some ["ns-261.awsdns-32.com."]⟩], true⟩,
       ⟨[⟨"update-dns-test.ci-cd.infrahouse.com.", "A", 300, some ["10.1.7.9"]⟩], false⟩]) :=
  ⟨rfl,
    (add_record_pagination "ci-cd.infrahouse.com" "update-dns-test" "10.1.2.80" 300
        [⟨[⟨"update-dns-test.ci-cd.infrahouse.com.", "A", 300, some ["10.1.3.223"]⟩], true⟩,
         ⟨[⟨"ci-cd.infrahouse.com.", "NS", 172800, some ["ns-261.awsdns-32.com."]⟩], true⟩,
         ⟨[⟨"update-dns-test.ci-cd.infrahouse.com.", "A", 300, some ["10.1.7.9"]⟩], false⟩]
        rfl).2
      ⟨[⟨"update-dns-test.ci-cd.infrahouse.com.", "A", 300, some ["10.1.7.9"]⟩], false⟩
      (by decide)
      ⟨"update-dns-test.ci-cd.infrahouse.com.", "A", 300, some ["10.1.7.9"]⟩
      (by decide) (by decide) "10.1.7.9" (by decide)⟩

/-! ## Remove-path lemmas -/

theorem removeIpSet_foldl (instanceIp : String) (vals : List String) (s : Finset String) :
    vals.foldl (fun s v => if v == instanceIp then s else insert v s) s
      = s ∪ (vals.filter (fun v => !(v == instanceIp))).toFinset := by
  induction vals generalizing s with
  | nil => simp
  | cons v vs ih =>
    rw [List.foldl_cons]
    by_cases h : (v == instanceIp) = true
    · rw [if_pos h, ih, List.filter_cons_of_neg (by simp [h])]
    · rw [if_neg h, ih, List.filter_cons_of_pos (by simp [h]), List.toFinset_cons,
        Finset.union_insert, Finset.insert_union]

theorem removeIpSet_eq (instanceIp : String) (rec : RRSet) (vals : List String)
    (hv : rec.resourceRecords = some vals) :
    removeIpSet instanceIp [rec] = vals.toFinset.erase instanceIp := by
  unfold removeIpSet
  rw [List.foldl_cons, List.foldl_nil, hv]
  show vals.foldl _ ∅ = _
  rw [removeIpSet_foldl, Finset.empty_union]
  ext a
  simp only [List.mem_toFinset, List.mem_filter, Finset.mem_erase, Bool.not_eq_eq_eq_not,
    Bool.not_true, beq_eq_false_iff_ne, ne_eq]
  tauto

/-- C2 (amended): given the listing returns the record set for the target
hostname with values `vals` and its own TTL `recTtl`, `remove_record`
computes the remaining set `vals` minus the instance's address; when it is
non-empty it issues one UPSERT whose value list contains exactly the
remaining addresses, each once, in CPython's unspecified set order (not
necessarily sorted), with the TTL passed to the call (not the record's);
when it is empty it issues one DELETE supplying the instance's address, so
an empty record set is never written. -/
theorem remove_record_remaining (zoneName hostname instanceIp : String)
    (ttl recTtl : Nat) (vals enum : List String)
    (hen : setEnumOk enum
      (removeIpSet instanceIp [⟨recordName hostname zoneName, "A", recTtl, some vals⟩])) :
    removeIpSet instanceIp [⟨recordName hostname zoneName, "A", recTtl, some vals⟩]
      = vals.toFinset.erase instanceIp
  ∧ (vals.toFinset.erase instanceIp ≠ ∅ →
      remove_record zoneName hostname instanceIp ttl
          [⟨recordName hostname zoneName, "A", recTtl, some vals⟩] enum
        = [⟨ChangeAction.upsert, ⟨recordName hostname zoneName, "A", enum, ttl⟩⟩]
      ∧ enum.Nodup ∧ enum.toFinset = vals.toFinset.erase instanceIp)
  ∧ (vals.toFinset.erase instanceIp = ∅ →
      remove_record zoneName hostname instanceIp ttl
          [⟨recordName hostname zoneName, "A", recTtl, some vals⟩] enum
        = [⟨ChangeAction.delete,
            ⟨recordName hostname zoneName, "A", [instanceIp], ttl⟩⟩]) := by
  have hrem : removeIpSet instanceIp
      [⟨recordName hostname zoneName, "A", recTtl, some vals⟩]
      = vals.toFinset.erase instanceIp := removeIpSet_eq instanceIp _ vals rfl
  obtain ⟨hnd, hfin⟩ := hen
  rw [hrem] at hfin
  refine ⟨hrem, ?_, ?_⟩
  · intro hne
    have henne : enum ≠ [] := by
      intro he
      rw [he] at hfin
      exact hne (by simpa using hfin.symm)
    refine ⟨?_, hnd, hfin⟩
    unfold remove_record
    rw [if_neg (by simpa using henne)]
  · intro hemp
    rw [hemp] at hfin
    have he : enum = [] := by simpa using hfin
    subst he
    rfl

/-- Witness for C2's amended statement: removing one of two addresses
leaves the other in one UPSERT. -/
theorem remove_record_remaining_witness :
    setEnumOk ["10.1.3.223"]
      (removeIpSet "10.1.2.80"
        [⟨recordName "update-dns-test" "ci-cd.infrahouse.com.", "A", 300,
          some ["10.1.2.80", "10.1.3.223"]⟩])
  ∧ removeIpSet "10.1.2.80"
      [⟨recordName "update-dns-test" "ci-cd.infrahouse.com.", "A", 300,
        some ["10.1.2.80", "10.1.3.223"]⟩]
      = (["10.1.2.80", "10.1.3.223"] : List String).toFinset.erase "10.1.2.80" :=
  ⟨⟨by decide, by decide⟩,
   (remove_record_remaining "ci-cd.infrahouse.com." "update-dns-test" "10.1.2.80" 300 300
      ["10.1.2.80", "10.1.3.223"] ["10.1.3.223"] ⟨by decide, by decide⟩).1⟩

/-- Counterexample to C2 as stated: a legitimate set-iteration order makes
`remove_record` write the remaining two addresses unsorted, and it writes
the call's TTL (300), not the record's (555): the issued change differs
from the sorted-with-original-TTL change the claim prescribes. -/
theorem remove_record_sorted_cex :
    setEnumOk ["2.2.2.2", "1.1.1.1"]
      (removeIpSet "3.3.3.3"
        [⟨"update-dns-test.ci-cd.infrahouse.com.", "A", 555,
          some ["1.1.1.1", "3.3.3.3", "2.2.2.2"]⟩])
  ∧ remove_record "ci-cd.infrahouse.com." "update-dns-test" "3.3.3.3" 300
      [⟨"update-dns-test.ci-cd.infrahouse.com.", "A", 555,
        some ["1.1.1.1", "3.3.3.3", "2.2.2.2"]⟩]
      ["2.2.2.2", "1.1.1.1"]
      = [⟨ChangeAction.upsert,
          ⟨"update-dns-test.ci-cd.infrahouse.com.", "A", ["2.2.2.2", "1.1.1.1"], 300⟩⟩]
  ∧ (["2.2.2.2", "1.1.1.1"] : List String)
      ≠ sortedValues (removeIpSet "3.3.3.3"
          [⟨"update-dns-test.ci-cd.infrahouse.com.", "A", 555,
            some ["1.1.1.1", "3.3.3.3", "2.2.2.2"]⟩])
  ∧ (300 : Nat) ≠ 555 :=
  ⟨⟨by decide, by decide⟩, by decide, by decide, by decide⟩

/-- C3 (amended): invoked when the listing returns no record sets for the
target hostname, `remove_record` raises no error at all — the code defines
no RecordNotFound — and instead issues a DELETE change supplying the
instance's address (which the backend will reject, since the record set
does not exist). -/
theorem remove_record_missing (zoneName hostname instanceIp : String) (ttl : Nat) :
    removeIpSet instanceIp [] = ∅
  ∧ setEnumOk [] (removeIpSet instanceIp [])
  ∧ remove_record zoneName hostname instanceIp ttl [] []
      = [⟨ChangeAction.delete, ⟨recordName hostname zoneName, "A", [instanceIp], ttl⟩⟩] :=
  ⟨rfl, ⟨List.nodup_nil, rfl⟩, rfl⟩

/-- Counterexample to C3 as stated: at a concrete input with no record set
returned, `remove_record` issues a (non-empty) DELETE write instead of
failing with RecordNotFound. -/
theorem remove_record_missing_cex :
    remove_record "ci-cd.infrahouse.com." "update-dns-test" "10.1.2.80" 300 [] []
      = [⟨ChangeAction.delete,
          ⟨"update-dns-test.ci-cd.infrahouse.com.", "A", ["10.1.2.80"], 300⟩⟩]
  ∧ remove_record "ci-cd.infrahouse.com." "update-dns-test" "10.1.2.80" 300 [] [] ≠ [] :=
  ⟨by decide, by decide⟩

/-! ## Lock lemmas -/

theorem lockAcquire_timeout (e : Nat) (he : e > lockTimeout) :
    ∀ l, lockAcquire e l = some LockOutcome.timedOut
  | [] => by unfold lockAcquire; rw [if_pos he]
  | _ :: _ => by unfold lockAcquire; rw [if_pos he]

theorem lockAcquire_replicate (k : Nat) :
    ∀ (e : Nat) (l : List PutOutcome), e + k ≤ lockTimeout →
      lockAcquire e (List.replicate k PutOutcome.condFailed ++ l)
        = lockAcquire (e + k) l := by
  induction k with
  | zero =>
    intro e l _
    simp
  | succ k ih =>
    intro e l h
    rw [List.replicate_succ, List.cons_append]
    have hstep : lockAcquire e (PutOutcome.condFailed ::
        (List.replicate k PutOutcome.condFailed ++ l))
        = lockAcquire (e + 1) (List.replicate k PutOutcome.condFailed ++ l) := by
      simp only [lockAcquire]
      rw [if_neg (by unfold lockTimeout at *; omega)]
    rw [hstep, ih (e + 1) l (by omega)]
    congr 1
    omega

/-- C5: the acquisition loop retries on the condition-failed error code
with a one-second backoff — after `k ≤ 30` contention signals and then a
successful put it acquires having waited `k` seconds; after more than 30
seconds of contention it fails with the timeout error; and any other error
code aborts the loop immediately and propagates, whatever comes later in
the trace. -/
theorem lock_retry_policy (k : Nat) (c : String) (rest : List PutOutcome)
    (hk : k ≤ lockTimeout) :
    lockAcquire 0 (List.replicate k PutOutcome.condFailed ++ PutOutcome.ok :: rest)
      = some (LockOutcome.acquired k)
  ∧ lockAcquire 0 (List.replicate k PutOutcome.condFailed ++ PutOutcome.err c :: rest)
      = some (LockOutcome.errored c)
  ∧ (∀ rest' : List PutOutcome,
      lockAcquire 0 (List.replicate (lockTimeout + 1) PutOutcome.condFailed ++ rest')
        = some LockOutcome.timedOut) := by
  refine ⟨?_, ?_, ?_⟩
  · rw [lockAcquire_replicate k 0 _ (by omega), Nat.zero_add]
    unfold lockAcquire
    rw [if_neg (by omega)]
  · rw [lockAcquire_replicate k 0 _ (by omega), Nat.zero_add]
    unfold lockAcquire
    rw [if_neg (by omega)]
  · intro rest'
    rw [List.replicate_succ', List.append_assoc,
      lockAcquire_replicate lockTimeout 0 _ (by omega), Nat.zero_add,
      List.singleton_append]
    have hstep : lockAcquire lockTimeout (PutOutcome.condFailed :: rest')
        = lockAcquire (lockTimeout + 1) rest' := by
      simp only [lockAcquire]
      rw [if_neg (by omega)]
    rw [hstep]
    exact lockAcquire_timeout (lockTimeout + 1) (by omega) rest'

/-- Witness for C5: two contention signals then success acquires after two
seconds; one contention signal then an access error propagates; thirty-one
contention signals time out. -/
theorem lock_retry_policy_witness :
    (2 : Nat) ≤ lockTimeout
  ∧ lockAcquire 0 (List.replicate 2 PutOutcome.condFailed ++ PutOutcome.ok :: [])
      = some (LockOutcome.acquired 2)
  ∧ lockAcquire 0 (List.replicate 2 PutOutcome.condFailed
      ++ PutOutcome.err "AccessDeniedException" :: [])
      = some (LockOutcome.errored "AccessDeniedException")
  ∧ lockAcquire 0 (List.replicate (lockTimeout + 1) PutOutcome.condFailed ++ [])
      = some LockOutcome.timedOut :=
  ⟨by decide,
   (lock_retry_policy 2 "AccessDeniedException" [] (by decide)).1,
   (lock_retry_policy 2 "AccessDeniedException" [] (by decide)).2.1,
   (lock_retry_policy 2 "AccessDeniedException" [] (by decide)).2.2 []⟩

theorem countDelete_append (rid : String) :
    ∀ (l₁ l₂ : List LockEvent),
      countDelete rid (l₁ ++ l₂) = countDelete rid l₁ + countDelete rid l₂
  | [], _ => by simp [countDelete]
  | e :: l₁, l₂ => by
    cases e with
    | deleteItem r =>
      show (if r == rid then 1 else 0) + countDelete rid (l₁ ++ l₂)
        = (if r == rid then 1 else 0) + countDelete rid l₁ + countDelete rid l₂
      rw [countDelete_append rid l₁ l₂]
      omega
    | putItem r o =>
      show countDelete rid (l₁ ++ l₂) = countDelete rid l₁ + countDelete rid l₂
      exact countDelete_append rid l₁ l₂
    | sleepOneSecond =>
      show countDelete rid (l₁ ++ l₂) = countDelete rid l₁ + countDelete rid l₂
      exact countDelete_append rid l₁ l₂
    | bodyRun =>
      show countDelete rid (l₁ ++ l₂) = countDelete rid l₁ + countDelete rid l₂
      exact countDelete_append rid l₁ l₂

theorem countDelete_acquireTrace (rid : String) :
    ∀ (e : Nat) (l : List PutOutcome), countDelete rid (acquireTrace rid e l) = 0
  | _, [] => rfl
  | e, r :: rest => by
    unfold acquireTrace
    by_cases h : e > lockTimeout
    · rw [if_pos h]
      rfl
    · rw [if_neg h]
      cases r with
      | ok => rfl
      | err c => rfl
      | condFailed =>
        show countDelete rid (acquireTrace rid (e + 1) rest) = 0
        exact countDelete_acquireTrace rid (e + 1) rest

/-- C6: when acquisition succeeds, the lock-row delete runs exactly once —
after the body — whether the body returns or raises, and the body's
exception still propagates; when acquisition fails (timeout or another
error), no delete is ever issued. -/
theorem lock_release_every_exit (rid : String) (puts : List PutOutcome)
    (body : BodyResult) :
    (∀ k, lockAcquire 0 puts = some (LockOutcome.acquired k) →
      lockRun rid puts body
        = some (acquireTrace rid 0 puts ++ [LockEvent.bodyRun, LockEvent.deleteItem rid],
            bodyExcept body)
      ∧ countDelete rid (acquireTrace rid 0 puts
          ++ [LockEvent.bodyRun, LockEvent.deleteItem rid]) = 1)
  ∧ (lockAcquire 0 puts = some LockOutcome.timedOut →
      lockRun rid puts body = some (acquireTrace rid 0 puts, Except.error lockTimeoutMsg)
      ∧ countDelete rid (acquireTrace rid 0 puts) = 0)
  ∧ (∀ c, lockAcquire 0 puts = some (LockOutcome.errored c) →
      lockRun rid puts body = some (acquireTrace rid 0 puts, Except.error c)
      ∧ countDelete rid (acquireTrace rid 0 puts) = 0) := by
  refine ⟨?_, ?_, ?_⟩
  · intro k hk
    constructor
    · unfold lockRun
      rw [hk]
    · rw [countDelete_append, countDelete_acquireTrace]
      simp [countDelete]
  · intro hk
    constructor
    · unfold lockRun
      rw [hk]
    · exact countDelete_acquireTrace rid 0 puts
  · intro c hk
    constructor
    · unfold lockRun
      rw [hk]
    · exact countDelete_acquireTrace rid 0 puts

/-- Witness for C6: a successful put after one contention signal leads to
exactly one delete even though the body raises; a timed-out acquisition
issues none. -/
theorem lock_release_every_exit_witness :
    lockAcquire 0 [PutOutcome.condFailed, PutOutcome.ok] = some (LockOutcome.acquired 1)
  ∧ lockRun "update-dns" [PutOutcome.condFailed, PutOutcome.ok]
        (BodyResult.raises "ClientError")
      = some (acquireTrace "update-dns" 0 [PutOutcome.condFailed, PutOutcome.ok]
          ++ [LockEvent.bodyRun, LockEvent.deleteItem "update-dns"],
          bodyExcept (BodyResult.raises "ClientError"))
  ∧ countDelete "update-dns" (acquireTrace "update-dns" 0
      [PutOutcome.condFailed, PutOutcome.ok]
      ++ [LockEvent.bodyRun, LockEvent.deleteItem "update-dns"]) = 1 :=
  ⟨by decide,
   ((lock_release_every_exit "update-dns" [PutOutcome.condFailed, PutOutcome.ok]
      (BodyResult.raises "ClientError")).1 1 (by decide)).1,
   ((lock_release_every_exit "update-dns" [PutOutcome.condFailed, PutOutcome.ok]
      (BodyResult.raises "ClientError")).1 1 (by decide)).2⟩

/-! ## Mutual-exclusion invariant -/

theorem lockInv_init : lockInv lockInit := by
  constructor
  · intro _
    exact ⟨by simp [lockInit], by simp [lockInit]⟩
  · simp [lockInit]

theorem lockInv_step {s s' : LockSys} (hinv : lockInv s) (hstep : LockStep s s') :
    lockInv s' := by
  obtain ⟨hrow0, hmutex⟩ := hinv
  cases hstep with
  | acquireFree i hw hrow =>
    have hn := hrow0 hrow
    cases i
    · show lockInv { rowPresent := true, pc1 := s.pc1, pc2 := ProcState.holding }
      exact ⟨fun h => by simp at h, fun h => hn.1 h.1⟩
    · show lockInv { rowPresent := true, pc1 := ProcState.holding, pc2 := s.pc2 }
      exact ⟨fun h => by simp at h, fun h => hn.2 h.2⟩
  | acquireBusy i hw hrow =>
    cases i
    · show lockInv { rowPresent := s.rowPresent, pc1 := s.pc1, pc2 := ProcState.waiting }
      refine ⟨fun h => ⟨(hrow0 h).1, by simp⟩, fun h => by simp at h⟩
    · show lockInv { rowPresent := s.rowPresent, pc1 := ProcState.waiting, pc2 := s.pc2 }
      refine ⟨fun h => ⟨by simp, (hrow0 h).2⟩, fun h => by simp at h⟩
  | releaseHeld i hh =>
    cases i
    · have hpc2 : s.pc2 = ProcState.holding := hh
      show lockInv { rowPresent := false, pc1 := s.pc1, pc2 := ProcState.released }
      refine ⟨fun _ => ⟨fun hpc1 => hmutex ⟨hpc1, hpc2⟩, by simp⟩, fun h => by simp at h⟩
    · have hpc1 : s.pc1 = ProcState.holding := hh
      show lockInv { rowPresent := false, pc1 := ProcState.released, pc2 := s.pc2 }
      refine ⟨fun _ => ⟨by simp, fun hpc2 => hmutex ⟨hpc1, hpc2⟩⟩, fun h => by simp at h⟩

theorem lockInv_reachable {s : LockSys} (h : LockReachable s) : lockInv s := by
  unfold LockReachable at h
  induction h with
  | refl => exact lockInv_init
  | tail _ hstep ih => exact lockInv_step ih hstep

/-- C7: in every reachable state of two contenders, at most one holds the
lock; moreover while the lock row is present no step can turn a non-holder
into a holder — a second conditional insert before the release can only
leave the caller waiting. -/
theorem lock_mutual_exclusion (s s' : LockSys) (i : Bool)
    (hreach : LockReachable s) :
    ¬(s.pc1 = ProcState.holding ∧ s.pc2 = ProcState.holding)
  ∧ (s.rowPresent = true → pcOf s i ≠ ProcState.holding → LockStep s s' →
      pcOf s' i ≠ ProcState.holding) := by
  refine ⟨(lockInv_reachable hreach).2, ?_⟩
  intro hrow hni hstep
  cases hstep with
  | acquireFree j hw hrowf =>
    rw [hrowf] at hrow
    exact absurd hrow (by simp)
  | acquireBusy j hw hrowb =>
    by_cases hij : i = j
    · subst hij
      cases i <;> simp [withPc, pcOf]
    · cases i <;> cases j <;> simp_all [withPc, pcOf]
  | releaseHeld j hh =>
    by_cases hij : i = j
    · subst hij
      cases i <;> simp [withPc, pcOf]
    · cases i <;> cases j <;> simp_all [withPc, pcOf]

/-- Witness for C7: the state after one successful acquisition is reachable
and has a single holder. -/
theorem lock_mutual_exclusion_witness :
    LockReachable (withPc { lockInit with rowPresent := true } true ProcState.holding)
  ∧ ¬((withPc { lockInit with rowPresent := true } true ProcState.holding).pc1
        = ProcState.holding
      ∧ (withPc { lockInit with rowPresent := true } true ProcState.holding).pc2
        = ProcState.holding) :=
  ⟨Relation.ReflTransGen.single (LockStep.acquireFree lockInit true rfl rfl),
   (lock_mutual_exclusion _ lockInit true
      (Relation.ReflTransGen.single (LockStep.acquireFree lockInit true rfl rfl))).1⟩

/-! ## Handler theorems -/

/-- C8 (amended): for every event with a recognized hook name and a
lifecycle transition, whatever the lock acquisition outcome and however the
removal body terminates, the handler's last action is
`complete_lifecycle_action` with result `"CONTINUE"` for that event's hook,
group, token and instance; an exception from the critical section is not
caught — it propagates out of the handler, after the acknowledgment. -/
theorem lambda_handler_ack (d : HookDetail) (acq : LockOutcome) (removal : BodyResult)
    (hrec : d.lifecycleHookName ∈ recognizedHooks) :
    ∃ tr res, lambda_handler_hook d acq removal = some (tr, res)
      ∧ tr.getLast? = some (HandlerAction.completeLifecycle d.lifecycleHookName
          d.autoScalingGroupName d.lifecycleActionToken d.ec2InstanceId "CONTINUE")
      ∧ (∀ k e, acq = LockOutcome.acquired k → removal = BodyResult.raises e →
          d.lifecycleTransition = "autoscaling:EC2_INSTANCE_TERMINATING" →
          res = Except.error e) := by
  unfold lambda_handler_hook
  rw [if_pos hrec]
  refine ⟨_, _, rfl, List.getLast?_concat _, ?_⟩
  intro k e hacq hrem htrans
  subst hacq
  subst hrem
  simp [htrans, bodyExcept]

/-- Witness for C8: a recognized terminating event whose removal raises
still ends in the CONTINUE acknowledgment, with the exception propagating. -/
theorem lambda_handler_ack_witness :
    ("update-dns-terminating" :
        String) ∈ recognizedHooks
  ∧ ∃ tr res,
      lambda_handler_hook
          ⟨"update-dns-terminating", "autoscaling:EC2_INSTANCE_TERMINATING",
           "web-asg", "token-1", "i-0757254d0627cbd0c"⟩
          (LockOutcome.acquired 0) (BodyResult.raises "ClientError: Throttling")
        = some (tr, res)
      ∧ tr.getLast? = some (HandlerAction.completeLifecycle "update-dns-terminating"
          "web-asg" "token-1" "i-0757254d0627cbd0c" "CONTINUE")
      ∧ (∀ k e, LockOutcome.acquired 0 = LockOutcome.acquired k →
          BodyResult.raises "ClientError: Throttling" = BodyResult.raises e →
          ("autoscaling:EC2_INSTANCE_TERMINATING" : String)
            = "autoscaling:EC2_INSTANCE_TERMINATING" →
          res = Except.error e) :=
  ⟨by decide,
   lambda_handler_ack
     ⟨"update-dns-terminating", "autoscaling:EC2_INSTANCE_TERMINATING",
      "web-asg", "token-1", "i-0757254d0627cbd0c"⟩
     (LockOutcome.acquired 0) (BodyResult.raises "ClientError: Throttling") (by decide)⟩

/-- Counterexample to C8 as stated: at a concrete terminating event whose
removal raises, the acknowledgment is issued but the failure is not caught
at the handler's top level — the handler itself terminates with the
exception rather than returning normally. -/
theorem lambda_handler_not_caught_cex :
    lambda_handler_hook
        ⟨"update-dns-terminating", "autoscaling:EC2_INSTANCE_TERMINATING",
         "web-asg", "token-1", "i-0757254d0627cbd0c"⟩
        (LockOutcome.acquired 0) (BodyResult.raises "ClientError: Throttling")
      = some
          ([HandlerAction.acquireLock "update-dns",
            HandlerAction.removeRecordCall "i-0757254d0627cbd0c",
            HandlerAction.releaseLock "update-dns",
            HandlerAction.completeLifecycle "update-dns-terminating" "web-asg" "token-1"
              "i-0757254d0627cbd0c" "CONTINUE"],
           Except.error "ClientError: Throttling")
  ∧ (Except.error "ClientError: Throttling" : Except String Unit) ≠ Except.ok () := by
  refine ⟨rfl, by simp⟩

/-- C9: the code's `resolve_hostname` knows no public-address sentinel and
no prefixes: the `"_PublicDnsName_"` value the repository's tests use as
the public sentinel is returned verbatim as the one hostname — never the
address-derived, per-prefix list — while only `"_PrivateDnsName_"` triggers
derivation, from the private DNS name's first label. -/
theorem resolve_hostname_public_sentinel :
    resolve_hostname "_PublicDnsName_" "ip-80-90-1-1.us-west-1.compute.internal"
      = "_PublicDnsName_"
  ∧ [resolve_hostname "_PublicDnsName_" "ip-80-90-1-1.us-west-1.compute.internal"]
      ≠ ["ip-80-90-1-1", "api-80-90-1-1"]
  ∧ resolve_hostname "ip-80-90-1-1" "x" = "ip-80-90-1-1"
  ∧ resolve_hostname "_PrivateDnsName_" "ip-10-1-0-104.ec2.internal" = "ip-10-1-0-104" :=
  ⟨by decide, by decide, by decide, by decide⟩

end UpdateDns
